import Mathlib

/-
Verification of the Apple Reminders → Asana CSV converter
(`asana_convert.py`).  The Python functions are shallowly embedded as
executable Lean definitions; machine strings are Lean `String`s (lists of
characters).  The regular-expression character classes `\w` and `\s` and
`str.strip`/`str.lower`/`str.capitalize` are modelled on the ASCII
repertoire actually exercised by the program and its tests.
-/

set_option maxHeartbeats 1000000

namespace AsanaConvert

/-! ## Character and string helpers -/

/-- The regex class `\w` (letters, digits, underscore), ASCII repertoire. -/
def isWordChar (c : Char) : Bool := c.isAlphanum || c == '_'

/-- The regex class `\s`, ASCII repertoire (as in `Char.isWhitespace`). -/
def isSpaceChar (c : Char) : Bool := c.isWhitespace

/-- Python `str.strip()`: remove leading and trailing whitespace. -/
def pyStrip (l : List Char) : List Char :=
  ((l.dropWhile isSpaceChar).reverse.dropWhile isSpaceChar).reverse

/-- Python `str.capitalize()`: first character uppercased, the rest lowercased. -/
def pyCapitalize (s : String) : String :=
  match s.data with
  | [] => ""
  | c :: r => ⟨c.toUpper :: r.map Char.toLower⟩

/-- Python `str.lower()`, ASCII repertoire. -/
def pyLower (s : String) : String := ⟨s.data.map Char.toLower⟩

theorem data_append (a b : String) : (a ++ b).data = a.data ++ b.data := by
  cases a; cases b; rfl

/-! ## Hashtag extraction (`extract_tags_from_title`, lines 125-132)

`tags = re.findall(r'#(\w+)', title)` and
`clean_title = re.sub(r'\s*#\w+', '', title).strip()`. -/

/-- Does the list start with a `\w` character? -/
def headWord : List Char → Bool
  | [] => false
  | c :: _ => isWordChar c

/-- Fuel-indexed left-to-right non-overlapping scan of `re.findall(r'#(\w+)', ·)`:
on a match the scan resumes after the matched word run. -/
def findTagsAux : Nat → List Char → List (List Char)
  | 0, _ => []
  | _ + 1, [] => []
  | fuel + 1, c :: rest =>
    if c == '#' && headWord rest then
      rest.takeWhile isWordChar :: findTagsAux fuel (rest.dropWhile isWordChar)
    else
      findTagsAux fuel rest

def findTags (l : List Char) : List (List Char) := findTagsAux l.length l

/-- Position-by-position description of the same token set: at every `'#'`
followed by a word character, the maximal word run after the `'#'` is a tag. -/
def posSpec : List Char → List (List Char)
  | [] => []
  | c :: rest =>
    if c == '#' && headWord rest then rest.takeWhile isWordChar :: posSpec rest
    else posSpec rest

/-- A match attempt of `\s*#\w+` at the head of the list; on success returns
the remainder after the match.  The greedy `\s*` must be the maximal
whitespace run because the following pattern character `#` is not whitespace. -/
def tagMatchAt (l : List Char) : Option (List Char) :=
  match l.dropWhile isSpaceChar with
  | '#' :: r => if headWord r then some (r.dropWhile isWordChar) else none
  | _ => none

/-- Fuel-indexed embedding of `re.sub(r'\s*#\w+', '', ·)`: left-to-right scan,
deleting each match and resuming after it. -/
def removeTagsAux : Nat → List Char → List Char
  | 0, l => l
  | _ + 1, [] => []
  | fuel + 1, c :: rest =>
    match tagMatchAt (c :: rest) with
    | some rem => removeTagsAux fuel rem
    | none => c :: removeTagsAux fuel rest

def removeTags (l : List Char) : List Char := removeTagsAux l.length l

/-- `extract_tags_from_title` (lines 125-132): returns the cleaned title and
the hashtag names in order of appearance. -/
def extract_tags_from_title (title : String) : String × List String :=
  (⟨pyStrip (removeTags title.data)⟩, (findTags title.data).map (fun t => (⟨t⟩ : String)))

theorem isWordChar_hash : isWordChar '#' = false := by decide

theorem posSpec_word_run (w : List Char) (r : List Char)
    (hw : ∀ c ∈ w, isWordChar c = true) : posSpec (w ++ r) = posSpec r := by
  induction w with
  | nil => rfl
  | cons c w ih =>
      have hc : isWordChar c = true := hw c (List.mem_cons_self c w)
      have hch : (c == '#') = false := by
        cases h : c == '#' with
        | false => rfl
        | true =>
            have : c = '#' := by simpa using h
            rw [this] at hc
            simp [isWordChar_hash] at hc
      simp only [List.cons_append, posSpec, hch, Bool.false_and, if_neg Bool.false_ne_true]
      exact ih (fun d hd => hw d (List.mem_cons_of_mem c hd))

theorem length_dropWhile_le (p : Char → Bool) (l : List Char) :
    (l.dropWhile p).length ≤ l.length := by
  induction l with
  | nil => simp
  | cons c rest ih =>
      by_cases h : p c
      · rw [List.dropWhile_cons_of_pos h]
        exact Nat.le_trans ih (Nat.le_succ _)
      · rw [List.dropWhile_cons_of_neg h]

theorem findTagsAux_eq_posSpec :
    ∀ fuel l, List.length l ≤ fuel → findTagsAux fuel l = posSpec l := by
  intro fuel
  induction fuel with
  | zero =>
      intro l hl
      have : l = [] := List.length_eq_zero.mp (Nat.le_zero.mp hl)
      subst this; rfl
  | succ fuel ih =>
      intro l hl
      cases l with
      | nil => rfl
      | cons c rest =>
          have hrest : rest.length ≤ fuel := by
            simpa using Nat.le_of_succ_le_succ hl
          by_cases h : (c == '#' && headWord rest) = true
          · have hdrop : (rest.dropWhile isWordChar).length ≤ fuel :=
              Nat.le_trans (length_dropWhile_le isWordChar rest) hrest
            have htake : ∀ d ∈ rest.takeWhile isWordChar, isWordChar d = true :=
              fun d hd => List.mem_takeWhile_imp hd
            calc findTagsAux (fuel + 1) (c :: rest)
                = rest.takeWhile isWordChar :: findTagsAux fuel (rest.dropWhile isWordChar) := by
                  simp [findTagsAux, h]
              _ = rest.takeWhile isWordChar :: posSpec (rest.dropWhile isWordChar) := by
                  rw [ih _ hdrop]
              _ = rest.takeWhile isWordChar :: posSpec rest := by
                  rw [← posSpec_word_run (rest.takeWhile isWordChar) (rest.dropWhile isWordChar)
                        htake, List.takeWhile_append_dropWhile]
              _ = posSpec (c :: rest) := by simp [posSpec, h]
          · have hb : (c == '#' && headWord rest) = false := by
              cases hx : (c == '#' && headWord rest) with
              | false => rfl
              | true => exact absurd hx h
            calc findTagsAux (fuel + 1) (c :: rest)
                = findTagsAux fuel rest := by simp [findTagsAux, hb]
              _ = posSpec rest := ih rest hrest
              _ = posSpec (c :: rest) := by simp [posSpec, hb]

theorem findTags_eq_posSpec (l : List Char) : findTags l = posSpec l :=
  findTagsAux_eq_posSpec l.length l (Nat.le_refl _)

/-! ## Case-insensitive keep-first deduplication

`combine_tags` (lines 135-148) iterates over the concatenated tag list with a
`seen` set of lowercased tags, keeping the first occurrence of each
case-insensitive class.  The loop is the `dedupByKey` scheme below with
key `pyLower`; the spec-modelled `deduplicate_reminders` uses the same
scheme with the normalized record tuple as key. -/

def dedupByKey {α κ : Type} [DecidableEq κ] (key : α → κ) : List κ → List α → List α
  | _, [] => []
  | seen, x :: rest =>
    if key x ∈ seen then dedupByKey key seen rest
    else x :: dedupByKey key (key x :: seen) rest

theorem dedupByKey_sublist {α κ : Type} [DecidableEq κ] (key : α → κ) :
    ∀ (seen : List κ) (l : List α), (dedupByKey key seen l).Sublist l := by
  intro seen l
  induction l generalizing seen with
  | nil => simp [dedupByKey]
  | cons x rest ih =>
      by_cases h : key x ∈ seen
      · simp only [dedupByKey, if_pos h]
        exact (ih seen).cons x
      · simp only [dedupByKey, if_neg h]
        exact (ih (key x :: seen)).cons₂ x

theorem dedupByKey_not_mem_seen {α κ : Type} [DecidableEq κ] (key : α → κ) :
    ∀ (seen : List κ) (l : List α) (y : α),
      y ∈ dedupByKey key seen l → key y ∉ seen := by
  intro seen l
  induction l generalizing seen with
  | nil => simp [dedupByKey]
  | cons x rest ih =>
      intro y hy
      by_cases h : key x ∈ seen
      · simp only [dedupByKey, if_pos h] at hy
        exact ih seen y hy
      · simp only [dedupByKey, if_neg h] at hy
        rcases List.mem_cons.mp hy with hy' | hy'
        · subst hy'; exact h
        · intro hmem
          exact ih (key x :: seen) y hy' (List.mem_cons_of_mem _ hmem)

theorem dedupByKey_keys_nodup {α κ : Type} [DecidableEq κ] (key : α → κ) :
    ∀ (seen : List κ) (l : List α), ((dedupByKey key seen l).map key).Nodup := by
  intro seen l
  induction l generalizing seen with
  | nil => simp [dedupByKey]
  | cons x rest ih =>
      by_cases h : key x ∈ seen
      · simp only [dedupByKey, if_pos h]; exact ih seen
      · simp only [dedupByKey, if_neg h, List.map_cons, List.nodup_cons]
        refine ⟨?_, ih (key x :: seen)⟩
        intro hmem
        rcases List.mem_map.mp hmem with ⟨y, hy, hkey⟩
        exact dedupByKey_not_mem_seen key _ _ y hy (by rw [hkey]; exact List.mem_cons_self _ _)

theorem dedupByKey_fixpoint {α κ : Type} [DecidableEq κ] (key : α → κ) :
    ∀ (seen : List κ) (l : List α), (l.map key).Nodup →
      (∀ x ∈ l, key x ∉ seen) → dedupByKey key seen l = l := by
  intro seen l
  induction l generalizing seen with
  | nil => intro _ _; rfl
  | cons x rest ih =>
      intro hnd hdisj
      have hx : key x ∉ seen := hdisj x (List.mem_cons_self _ _)
      simp only [dedupByKey, if_neg hx]
      congr 1
      apply ih (key x :: seen)
      · exact (List.nodup_cons.mp (by simpa using hnd)).2
      · intro z hz
        intro hmem
        rcases List.mem_cons.mp hmem with hz' | hz'
        · have : key x ∈ rest.map key := by
            rw [← hz']; exact List.mem_map_of_mem key hz
          exact (List.nodup_cons.mp (by simpa using hnd)).1 this
        · exact hdisj z (List.mem_cons_of_mem _ hz) hz'

theorem dedupByKey_complete {α κ : Type} [DecidableEq κ] (key : α → κ) :
    ∀ (seen : List κ) (l : List α) (x : α), x ∈ l →
      key x ∈ seen ∨ ∃ y ∈ dedupByKey key seen l, key y = key x := by
  intro seen l
  induction l generalizing seen with
  | nil => intro x hx; simp at hx
  | cons z rest ih =>
      intro x hx
      by_cases h : key z ∈ seen
      · simp only [dedupByKey, if_pos h]
        rcases List.mem_cons.mp hx with hx' | hx'
        · subst hx'; exact Or.inl h
        · exact ih seen x hx'
      · simp only [dedupByKey, if_neg h]
        rcases List.mem_cons.mp hx with hx' | hx'
        · exact Or.inr ⟨z, List.mem_cons_self _ _, by rw [hx']⟩
        · rcases ih (key z :: seen) x hx' with hmem | ⟨y, hy, hkey⟩
          · rcases List.mem_cons.mp hmem with he | he
            · exact Or.inr ⟨z, List.mem_cons_self _ _, he.symm⟩
            · exact Or.inl he
          · exact Or.inr ⟨y, List.mem_cons_of_mem _ hy, hkey⟩

theorem dedupByKey_find_first {α κ : Type} [DecidableEq κ] (key : α → κ) :
    ∀ (seen : List κ) (l : List α) (y : α), y ∈ dedupByKey key seen l →
      l.find? (fun z => decide (key z = key y)) = some y := by
  intro seen l
  induction l generalizing seen with
  | nil => simp [dedupByKey]
  | cons x rest ih =>
      intro y hy
      by_cases h : key x ∈ seen
      · simp only [dedupByKey, if_pos h] at hy
        have hne : key x ≠ key y := by
          intro he
          exact dedupByKey_not_mem_seen key seen rest y hy (he ▸ h)
        rw [List.find?_cons_of_neg _ (by simpa using hne)]
        exact ih seen y hy
      · simp only [dedupByKey, if_neg h] at hy
        rcases List.mem_cons.mp hy with hy' | hy'
        · subst hy'
          rw [List.find?_cons_of_pos _ (by simp)]
        · have hns : key y ∉ (key x :: seen) :=
            dedupByKey_not_mem_seen key _ _ y hy'
          have hne : key x ≠ key y := by
            intro he
            exact hns (he ▸ List.mem_cons_self _ _)
          rw [List.find?_cons_of_neg _ (by simpa using hne)]
          exact ih (key x :: seen) y hy'

/-- `combine_tags` (lines 135-148): concatenate the hashtag list with the
native tag list and keep the first occurrence of each case-insensitive class
(the `seen` set holds lowercased tags). -/
def combine_tags (hashtags native_tags : List String) : List String :=
  dedupByKey pyLower [] (hashtags ++ native_tags)

/-! ## Date formatting (`format_date`, lines 59-74)

`datetime.fromisoformat(date_string.replace('Z', '+00:00'))` followed by
`strftime('%m/%d/%Y')`; any parse failure yields `''`.  The accepted grammar
is modelled after `fromisoformat`:
`YYYY-MM-DD[<any single separator char>HH[:MM[:SS[.f{1,6}]]][(+|-)HH:MM[:SS]]]`
with calendar and clock range validation. -/

structure PyDate where
  year : Nat
  month : Nat
  day : Nat
deriving DecidableEq

def isLeapYear (y : Nat) : Bool := y % 4 == 0 && (y % 100 != 0 || y % 400 == 0)

def daysInMonth (y m : Nat) : Nat :=
  if m == 2 then (if isLeapYear y then 29 else 28)
  else if m == 4 || m == 6 || m == 9 || m == 11 then 30
  else 31

/-- Read exactly `k` decimal digits, accumulating their value. -/
def readFixedNat : Nat → Nat → List Char → Option (Nat × List Char)
  | 0, acc, l => some (acc, l)
  | _ + 1, _, [] => none
  | k + 1, acc, c :: l =>
    if c.isDigit then readFixedNat k (acc * 10 + (c.toNat - 48)) l else none

def expectChar (c : Char) : List Char → Option (List Char)
  | x :: rest => if x == c then some rest else none
  | [] => none

/-- Optional fractional-second part: a dot followed by one to six digits. -/
def parseFraction : List Char → Option (List Char)
  | '.' :: rest =>
      let ds := rest.takeWhile Char.isDigit
      if 1 ≤ ds.length && ds.length ≤ 6 then some (rest.drop ds.length) else none
  | l => some l

/-- Optional seconds component of a UTC offset; must reach the end of input. -/
def parseOffsetTail : List Char → Option Unit
  | [] => some ()
  | ':' :: r =>
      match readFixedNat 2 0 r with
      | some (os, l) => if os ≤ 59 && l.isEmpty then some () else none
      | none => none
  | _ => none

/-- Optional UTC offset `(+|-)HH:MM[:SS]`; must reach the end of input. -/
def parseOffsetPart : List Char → Option Unit
  | [] => some ()
  | s :: rest =>
    if s == '+' || s == '-' then
      match readFixedNat 2 0 rest with
      | some (oh, l) =>
          match expectChar ':' l with
          | some l =>
              match readFixedNat 2 0 l with
              | some (om, l) => if oh ≤ 23 && om ≤ 59 then parseOffsetTail l else none
              | none => none
          | none => none
      | none => none
    else none

/-- Time-of-day part `HH[:MM[:SS[.ffffff]]]` with optional trailing offset. -/
def parseTimePart (l : List Char) : Option Unit :=
  match readFixedNat 2 0 l with
  | none => none
  | some (hh, l) =>
    if hh ≤ 23 then
      match l with
      | ':' :: r =>
          match readFixedNat 2 0 r with
          | none => none
          | some (mi, l) =>
            if mi ≤ 59 then
              match l with
              | ':' :: r2 =>
                  match readFixedNat 2 0 r2 with
                  | none => none
                  | some (ss, l2) =>
                    if ss ≤ 59 then
                      match parseFraction l2 with
                      | some l3 => parseOffsetPart l3
                      | none => none
                    else none
              | rest => parseOffsetPart rest
            else none
      | rest => parseOffsetPart rest
    else none

/-- `datetime.fromisoformat` restricted to the date fields the program uses. -/
def parse_isoformat (l : List Char) : Option PyDate :=
  match readFixedNat 4 0 l with
  | none => none
  | some (y, l) =>
    match expectChar '-' l with
    | none => none
    | some l =>
      match readFixedNat 2 0 l with
      | none => none
      | some (mo, l) =>
        match expectChar '-' l with
        | none => none
        | some l =>
          match readFixedNat 2 0 l with
          | none => none
          | some (d, l) =>
            if 1 ≤ mo && mo ≤ 12 && 1 ≤ d && d ≤ daysInMonth y mo then
              match l with
              | [] => some ⟨y, mo, d⟩
              | _sep :: rest =>
                  match parseTimePart rest with
                  | some _ => some ⟨y, mo, d⟩
                  | none => none
            else none

/-- `date_string.replace('Z', '+00:00')`: every `'Z'` is replaced. -/
def replaceZ : List Char → List Char
  | [] => []
  | c :: rest =>
      if c == 'Z' then '+' :: '0' :: '0' :: ':' :: '0' :: '0' :: replaceZ rest
      else c :: replaceZ rest

/-- Zero-padding of `strftime('%m')` / `'%d'`. -/
def pad2 (n : Nat) : String := if n < 10 then "0" ++ toString n else toString n

/-- Zero-padding of `strftime('%Y')`. -/
def pad4 (n : Nat) : String :=
  if n < 10 then "000" ++ toString n
  else if n < 100 then "00" ++ toString n
  else if n < 1000 then "0" ++ toString n
  else toString n

/-- `format_date` (lines 59-74): `''` for empty input, `MM/DD/YYYY` for a
parseable ISO-8601 timestamp, and `''` (after a logged warning) on any parse
failure — the embedded function is total, mirroring the `except` handler. -/
def format_date (date_string : String) : String :=
  if date_string = "" then ""
  else
    match parse_isoformat (replaceZ date_string.data) with
    | some dt => pad2 dt.month ++ "/" ++ pad2 dt.day ++ "/" ++ pad4 dt.year
    | none => ""

/-! ## Section formatting (`format_section`, lines 151-164) -/

/-- `format_section`: `''` for `None`/empty, and for a name ending in `':'`
the result of `list_name[:-1].strip()`; otherwise the name unchanged. -/
def format_section : Option String → String
  | none => ""
  | some s =>
      if s = "" then ""
      else if s.data.getLast? = some ':' then ⟨pyStrip s.data.dropLast⟩
      else s

/-! ## Priority mapping (`map_priority`, lines 77-106) -/

def priority_map : List (String × String) :=
  [("Ohne", "Low"), ("Gering", "Low"), ("Niedrig", "Low"), ("Mittel", "Medium"),
   ("Hoch", "High"), ("None", "Low"), ("Low", "Low"), ("Medium", "Medium"),
   ("High", "High"), ("", "Low")]

def german_map : List (String × String) :=
  [("Low", "Niedrig"), ("Medium", "Mittel"), ("High", "Hoch")]

/-- `map_priority`: dictionary lookup with default `'Low'`, then an optional
German localization step with default `'Niedrig'`. -/
def map_priority (apple_priority : String) (language : String) : String :=
  let standard_priority :=
    ((priority_map.find? (fun p => p.1 == apple_priority)).map Prod.snd).getD "Low"
  if language = "de" then
    ((german_map.find? (fun p => p.1 == standard_priority)).map Prod.snd).getD "Niedrig"
  else standard_priority

/-! ## CSV field names -/

/-- `get_asana_fieldnames` (lines 109-122). -/
def get_asana_fieldnames (language : String) : List String :=
  if language = "de" then
    ["Name", "Assignee Email", "Due Date", "Tags", "Notes", "Section/Column", "Priorit√§t"]
  else
    ["Name", "Assignee Email", "Due Date", "Tags", "Notes", "Section/Column", "Priority"]

/-- The fixed header of the original (non-Asana) CSV format
(`write_csv_file`, lines 277-280). -/
def legacy_fieldnames : List String :=
  ["Name", "Description", "Target Section", "Assignee", "Assignee Email",
   "Due Date", "Tags", "Priority"]

/-! ## Raw records

A reminder record is a JSON object; the program reads a fixed set of keys
with `dict.get` defaults.  Each key the program touches is modelled as an
`Option` field (`none` = key absent).  The legacy-schema keys `Title`,
`Notes`, `List`, `Due Date`, `Priority`, `Is Completed` are the fields
`Title`, `Notes`, `ListName`, `DueDate`, `Priority`, `IsCompleted`; the
current-schema keys keep their lowercase names (`list` as `list_name`). -/

structure Subtask where
  title : Option String
  notes : Option String
deriving DecidableEq

structure RawReminder where
  Title : Option String
  Notes : Option String
  ListName : Option String
  DueDate : Option String
  Priority : Option String
  IsCompleted : Option Bool
  title : Option String
  notes : Option String
  list_name : Option String
  due_date : Option String
  prio : Option String
  done : Option String
  tags : Option (List String)
  subtasks : Option (List Subtask)
  flagged : Option String
  has_reminder : Option String
  reminder_location : Option String
  url : Option String
deriving DecidableEq

/-- Schema detection: `'Title' in json_data` (lines 186, 301, 405). -/
def isOldFormat (r : RawReminder) : Bool := r.Title.isSome

/-- Title of the record under either schema (lines 190/198, 303/311). -/
def reminderTitle (r : RawReminder) : String :=
  if isOldFormat r then r.Title.getD "" else r.title.getD ""

def reminderNotes (r : RawReminder) : String :=
  if isOldFormat r then r.Notes.getD "" else r.notes.getD ""

def reminderListName (r : RawReminder) : String :=
  if isOldFormat r then r.ListName.getD "" else r.list_name.getD ""

def reminderDueDate (r : RawReminder) : String :=
  if isOldFormat r then r.DueDate.getD "" else r.due_date.getD ""

def reminderPriorityStr (r : RawReminder) : String :=
  if isOldFormat r then r.Priority.getD "" else r.prio.getD ""

/-- Native tags: the legacy schema has none (lines 196, 204, 308, 316). -/
def reminderNativeTags (r : RawReminder) : List String :=
  if isOldFormat r then [] else r.tags.getD []

/-- Subtasks: the legacy schema has none (lines 309, 317). -/
def reminderSubtasks (r : RawReminder) : List Subtask :=
  if isOldFormat r then [] else r.subtasks.getD []

/-- Normalized completion flag: legacy native boolean `Is Completed`,
current string equality `done == 'Ja'` (lines 195/203, 405-410, 469-472). -/
def reminderIsCompleted (r : RawReminder) : Bool :=
  if isOldFormat r then r.IsCompleted.getD false else r.done.getD "" == "Ja"

/-! ## Output rows

An output row is a Python dict with string keys and values, built as a
literal and then updated in place; modelled as an insertion-ordered
association list. -/

abbrev Row := List (String × String)

/-- Python dict read `row[k]` (every read in the program hits a present key). -/
def dictGet (row : Row) (k : String) : String :=
  ((row.find? (fun p => p.1 == k)).map Prod.snd).getD ""

/-- Python dict write `row[k] = v`: replace in place if the key is present,
otherwise append at the end (insertion order). -/
def dictSet : Row → String → String → Row
  | [], k, v => [(k, v)]
  | (k', v') :: rest, k, v =>
      if k' == k then (k, v) :: rest else (k', v') :: dictSet rest k v

theorem dictGet_dictSet_self (row : Row) (k v : String) :
    dictGet (dictSet row k v) k = v := by
  induction row with
  | nil => simp [dictSet, dictGet, List.find?]
  | cons p rest ih =>
      by_cases h : p.1 == k
      · simp [dictSet, h, dictGet, List.find?]
      · simp only [dictSet]
        rw [if_neg h]
        simpa [dictGet, List.find?, h] using ih

theorem dictGet_dictSet_ne (row : Row) (k k' v : String) (h : (k' == k) = false) :
    dictGet (dictSet row k' v) k = dictGet row k := by
  induction row with
  | nil => simp [dictSet, dictGet, List.find?, h]
  | cons p rest ih =>
      by_cases hp : p.1 == k'
      · have hpk : (p.1 == k) = false := by
          have h1 : p.1 = k' := by simpa using hp
          simpa [h1] using h
        simp [dictSet, hp, dictGet, List.find?, h, hpk]
      · simp only [dictSet]
        rw [if_neg hp]
        by_cases hk : p.1 == k
        · simp [dictGet, List.find?, hk]
        · simpa [dictGet, List.find?, hk] using ih

theorem dictSet_keys_of_mem (row : Row) (k v : String) (h : k ∈ row.map Prod.fst) :
    (dictSet row k v).map Prod.fst = row.map Prod.fst := by
  induction row with
  | nil => simp at h
  | cons p rest ih =>
      by_cases hp : p.1 == k
      · have h1 : p.1 = k := by simpa using hp
        simp [dictSet, hp, h1]
      · have h1 : ¬p.1 = k := by simpa using hp
        simp only [dictSet]
        rw [if_neg hp]
        have hmem : k ∈ rest.map Prod.fst := by
          rw [List.map_cons] at h
          rcases List.mem_cons.mp h with he | he
          · exact absurd he.symm h1
          · exact he
        simp [ih hmem]

/-! ## Assignee derivation (lines 216-224, 326-332) -/

/-- Display name from an e-mail address: title-cased local part, with
`'.'`-separated segments joined by spaces. -/
def assigneeNameOf (assignee_email : String) : String :=
  if assignee_email = "" then ""
  else
    let local_part := ((assignee_email.split (fun c => c == '@')).headD "")
    if local_part.data.contains '.' then
      String.intercalate " " ((local_part.split (fun c => c == '.')).map pyCapitalize)
    else pyCapitalize local_part

/-! ## Row builders -/

/-- Extended-metadata lines appended to the description by
`convert_json_to_asana_row` (lines 240-251); includes the subtask count. -/
def rowAdditionalInfo (r : RawReminder) : List String :=
  (if r.flagged.getD "" == "Ja" then ["‚≠ê Flagged"] else []) ++
  (if r.has_reminder.getD "" == "Ja" then ["üîî Has Reminder"] else []) ++
  (if r.reminder_location.getD "" ≠ "" then
    ["üìç Location: " ++ r.reminder_location.getD ""] else []) ++
  (if r.url.getD "" ≠ "" then ["üîó URL: " ++ r.url.getD ""] else []) ++
  (if (r.subtasks.getD []) ≠ [] then
    ["üìù " ++ toString (r.subtasks.getD []).length ++ " subtasks"] else [])

/-- `convert_json_to_asana_row` (lines 180-260): one record to one row of the
original CSV format. -/
def convert_json_to_asana_row (r : RawReminder) (default_assignee : Option String) : Row :=
  let title := reminderTitle r
  let notes := reminderNotes r
  let ct := extract_tags_from_title title
  let all_tags := combine_tags ct.2 (reminderNativeTags r)
  let assignee_email := default_assignee.getD ""
  let row : Row :=
    [("Name", if ct.1 = "" then title else ct.1),
     ("Description", notes),
     ("Target Section", format_section (some (reminderListName r))),
     ("Assignee", assigneeNameOf assignee_email),
     ("Assignee Email", assignee_email),
     ("Due Date", format_date (reminderDueDate r)),
     ("Tags", String.intercalate ", " all_tags),
     ("Priority", map_priority (reminderPriorityStr r) "en")]
  if isOldFormat r then row
  else
    let infos := rowAdditionalInfo r
    if infos ≠ [] then
      dictSet row "Description"
        (if notes ≠ "" then notes ++ "\n\n" ++ String.intercalate "\n" infos
         else String.intercalate "\n" infos)
    else row

/-- Extended-metadata lines appended to the notes by
`convert_to_asana_format` (lines 350-365); no subtask count here. -/
def asanaAdditionalInfo (r : RawReminder) : List String :=
  (if r.flagged.getD "" == "Ja" then ["‚≠ê Flagged"] else []) ++
  (if r.has_reminder.getD "" == "Ja" then ["üîî Has Reminder"] else []) ++
  (if r.reminder_location.getD "" ≠ "" then
    ["üìç Location: " ++ r.reminder_location.getD ""] else []) ++
  (if r.url.getD "" ≠ "" then ["üîó URL: " ++ r.url.getD ""] else [])

/-- The `'Subtask:'` marker line for one subtask (lines 375-377). -/
def subtaskInfo (st : Subtask) : String :=
  "üìù Subtask: " ++ st.title.getD "Untitled Subtask" ++
    (if st.notes.getD "" ≠ "" then " - " ++ st.notes.getD "" else "")

/-- One iteration of the subtask loop (lines 371-382): append the marker line
to the parent row's `Notes`. -/
def appendSubtaskNotes (row : Row) (st : Subtask) : Row :=
  let info := subtaskInfo st
  if dictGet row "Notes" ≠ "" then
    dictSet row "Notes" (dictGet row "Notes" ++ "\n" ++ info)
  else dictSet row "Notes" info

/-- The `main_task` literal of `convert_to_asana_format` (lines 334-347). -/
def asanaBaseRow (r : RawReminder) (default_assignee : Option String)
    (language : String) : Row :=
  let title := reminderTitle r
  let ct := extract_tags_from_title title
  let all_tags := combine_tags ct.2 (reminderNativeTags r)
  let assignee_email := default_assignee.getD ""
  [("Name", if ct.1 = "" then title else ct.1),
   ("Assignee Email", assignee_email),
   ("Due Date", format_date (reminderDueDate r)),
   ("Tags", String.intercalate ", " all_tags),
   ("Notes", reminderNotes r),
   ("Section/Column", format_section (some (reminderListName r))),
   ((if language = "de" then "Priorit√§t" else "Priority"),
    map_priority (reminderPriorityStr r) language)]

/-- The main-task row after the metadata append (lines 349-365). -/
def asanaMetaRow (r : RawReminder) (default_assignee : Option String)
    (language : String) : Row :=
  let base := asanaBaseRow r default_assignee language
  if isOldFormat r then base
  else
    let infos := asanaAdditionalInfo r
    if infos ≠ [] then
      dictSet base "Notes"
        (if reminderNotes r ≠ "" then
          reminderNotes r ++ "\n\n" ++ String.intercalate "\n" infos
         else String.intercalate "\n" infos)
    else base

/-- The finished row for one reminder: metadata append followed by the
subtask loop (lines 299-382). -/
def asanaMainRow (r : RawReminder) (default_assignee : Option String)
    (language : String) : Row :=
  (reminderSubtasks r).foldl appendSubtaskNotes
    (asanaMetaRow r default_assignee language)

/-- `convert_to_asana_format` (lines 290-384): the loop appends exactly one
row per reminder to `asana_rows` (`project_name` and the id counter are
unused in row construction). -/
def convertToAsanaAux (default_assignee : Option String) (language : String) :
    List RawReminder → List Row → List Row
  | [], acc => acc
  | r :: rest, acc =>
      convertToAsanaAux default_assignee language rest
        (acc ++ [asanaMainRow r default_assignee language])

def convert_to_asana_format (reminders : List RawReminder)
    (default_assignee : Option String) (project_name : String)
    (language : String) : List Row :=
  convertToAsanaAux default_assignee language reminders []

/-- `process_bulk_json` (lines 387-429): returns the converted rows and the
skipped-completed count (the loop's `converted_rows` and `skipped_count`). -/
def process_bulk_json (reminders : List RawReminder)
    (default_assignee : Option String) (include_completed : Bool) :
    List Row × Nat :=
  match reminders with
  | [] => ([], 0)
  | r :: rest =>
      let prev := process_bulk_json rest default_assignee include_completed
      if !include_completed && reminderIsCompleted r then (prev.1, prev.2 + 1)
      else (convert_json_to_asana_row r default_assignee :: prev.1, prev.2)

/-! ## Format detection (`detect_json_format`, lines 167-177) -/

/-- The JSON value found under the `'reminders'` key, when present:
either a list (of records) or some non-list value. -/
inductive RemindersValue where
  | arr (rs : List RawReminder)
  | nonList
deriving DecidableEq

/-- The parts of a parsed JSON document that `detect_json_format` inspects:
the optional `'reminders'` entry and the presence of a title key in either
casing. -/
structure JsonDoc where
  reminders : Option RemindersValue
  Title : Option String
  title : Option String

def detect_json_format (d : JsonDoc) : String :=
  match d.reminders with
  | some (RemindersValue.arr _) => "bulk"
  | _ => if d.Title.isSome || d.title.isSome then "single" else "unknown"

/-- Success/failure outcome of `process_single_file`'s dispatch on the
detected format (lines 446-531): both known formats are processed and the
function returns `True`; the `'unknown'` branch prints a message and returns
`False` instead of raising. -/
def process_single_file_result (d : JsonDoc) : Bool :=
  if detect_json_format d = "bulk" then true
  else if detect_json_format d = "single" then true
  else false

/-! ## Deduplication (spec-modelled) -/

/-- Modelled from the spec: `deduplicate_reminders` is exercised by the test
suite (`TestReminderDeduplication`) but absent from `asana_convert.py`.  Per
the spec (§4.2), its duplicate key is the normalized
(title, notes, section/list, due_date) tuple, compared after schema
normalization; priority, tags and completion status are not part of the key. -/
def dedupKey (r : RawReminder) : String × String × String × String :=
  if isOldFormat r then
    (r.Title.getD "", r.Notes.getD "", r.ListName.getD "", r.DueDate.getD "")
  else
    (r.title.getD "", r.notes.getD "", r.list_name.getD "", r.due_date.getD "")

/-- Modelled from the spec: `deduplicate_reminders` keeps only the first
occurrence of each duplicate group and preserves the relative order of the
survivors (spec §4.2, §8). -/
def deduplicate_reminders (reminders : List RawReminder) : List RawReminder :=
  dedupByKey dedupKey [] reminders

/-! ## Supporting lemmas -/

/-- `s` occurs contiguously inside `t`. -/
def ContainsSeg (s t : List Char) : Prop := ∃ u v, t = u ++ s ++ v

theorem containsSeg_self (s : List Char) : ContainsSeg s s :=
  ⟨[], [], by simp⟩

theorem containsSeg_append_left (s t u : List Char) (h : ContainsSeg s t) :
    ContainsSeg s (u ++ t) := by
  rcases h with ⟨x, y, rfl⟩
  exact ⟨u ++ x, y, by simp⟩

theorem containsSeg_append_right (s t u : List Char) (h : ContainsSeg s t) :
    ContainsSeg s (t ++ u) := by
  rcases h with ⟨x, y, rfl⟩
  exact ⟨x, y ++ u, by simp⟩

theorem containsSeg_of_prefix (s u : List Char) : ContainsSeg s (s ++ u) :=
  containsSeg_append_right s s u (containsSeg_self s)

/-- The loop of `convert_to_asana_format` builds one row per reminder,
in input order. -/
theorem convertToAsanaAux_eq (default_assignee : Option String) (language : String) :
    ∀ (l : List RawReminder) (acc : List Row),
      convertToAsanaAux default_assignee language l acc =
        acc ++ l.map (fun r => asanaMainRow r default_assignee language) := by
  intro l
  induction l with
  | nil => intro acc; simp [convertToAsanaAux]
  | cons r rest ih =>
      intro acc
      rw [convertToAsanaAux, ih]
      simp

theorem convert_to_asana_format_eq_map (reminders : List RawReminder)
    (default_assignee : Option String) (project_name language : String) :
    convert_to_asana_format reminders default_assignee project_name language =
      reminders.map (fun r => asanaMainRow r default_assignee language) := by
  rw [convert_to_asana_format, convertToAsanaAux_eq]
  simp

/-- The rows produced by `process_bulk_json` are exactly the conversions of
the records that pass the completion filter. -/
theorem process_bulk_json_rows (default_assignee : Option String)
    (include_completed : Bool) :
    ∀ reminders : List RawReminder,
      (process_bulk_json reminders default_assignee include_completed).1 =
        (reminders.filter
          (fun r => include_completed || !reminderIsCompleted r)).map
          (fun r => convert_json_to_asana_row r default_assignee) := by
  intro reminders
  induction reminders with
  | nil => rfl
  | cons r rest ih =>
      rw [process_bulk_json]
      cases hinc : include_completed with
      | false =>
          rw [hinc] at ih
          cases hc : reminderIsCompleted r with
          | false => simp [hc, List.filter_cons, ih]
          | true => simp [hc, List.filter_cons, ih]
      | true =>
          rw [hinc] at ih
          simp [List.filter_cons, ih]

/-- The skip counter of `process_bulk_json` counts exactly the completed
records dropped by the filter. -/
theorem process_bulk_json_skipped (default_assignee : Option String)
    (include_completed : Bool) :
    ∀ reminders : List RawReminder,
      (process_bulk_json reminders default_assignee include_completed).2 =
        (reminders.filter
          (fun r => !include_completed && reminderIsCompleted r)).length := by
  intro reminders
  induction reminders with
  | nil => rfl
  | cons r rest ih =>
      rw [process_bulk_json]
      cases hinc : include_completed with
      | false =>
          rw [hinc] at ih
          cases hc : reminderIsCompleted r with
          | false => simp [hc, List.filter_cons, ih]
          | true => simp [hc, List.filter_cons, ih]
      | true =>
          rw [hinc] at ih
          simp [List.filter_cons, ih]

/-- Key set of the `main_task` literal. -/
theorem asanaBaseRow_keys (r : RawReminder) (default_assignee : Option String)
    (language : String) :
    (asanaBaseRow r default_assignee language).map Prod.fst =
      get_asana_fieldnames language := by
  by_cases h : language = "de" <;> simp [asanaBaseRow, get_asana_fieldnames, h]

theorem notes_mem_asana_fieldnames (language : String) :
    "Notes" ∈ get_asana_fieldnames language := by
  by_cases h : language = "de" <;> simp [get_asana_fieldnames, h]

theorem asanaMetaRow_keys (r : RawReminder) (default_assignee : Option String)
    (language : String) :
    (asanaMetaRow r default_assignee language).map Prod.fst =
      get_asana_fieldnames language := by
  rw [asanaMetaRow]
  by_cases ho : isOldFormat r
  · simp only [ho, if_true]
    exact asanaBaseRow_keys r default_assignee language
  · simp only [ho, if_false, Bool.false_eq_true]
    by_cases hi : asanaAdditionalInfo r ≠ []
    · rw [if_pos hi, dictSet_keys_of_mem, asanaBaseRow_keys]
      rw [asanaBaseRow_keys]
      exact notes_mem_asana_fieldnames language
    · rw [if_neg hi]
      exact asanaBaseRow_keys r default_assignee language

/-- The subtask loop only rewrites the `Notes` value; the key set is stable. -/
theorem subtask_fold_keys (sts : List Subtask) :
    ∀ row : Row, "Notes" ∈ row.map Prod.fst →
      (sts.foldl appendSubtaskNotes row).map Prod.fst = row.map Prod.fst := by
  induction sts with
  | nil => intro row _; rfl
  | cons st rest ih =>
      intro row hmem
      rw [List.foldl_cons]
      have hkeys : (appendSubtaskNotes row st).map Prod.fst = row.map Prod.fst := by
        rw [appendSubtaskNotes]
        by_cases h : dictGet row "Notes" ≠ ""
        · rw [if_pos h]; exact dictSet_keys_of_mem row _ _ hmem
        · rw [if_neg h]; exact dictSet_keys_of_mem row _ _ hmem
      rw [ih (appendSubtaskNotes row st) (by rw [hkeys]; exact hmem), hkeys]

theorem asanaMainRow_keys (r : RawReminder) (default_assignee : Option String)
    (language : String) :
    (asanaMainRow r default_assignee language).map Prod.fst =
      get_asana_fieldnames language := by
  rw [asanaMainRow, subtask_fold_keys, asanaMetaRow_keys]
  rw [asanaMetaRow_keys]
  exact notes_mem_asana_fieldnames language

/-- Key set of the legacy-format row. -/
theorem convert_json_to_asana_row_keys (r : RawReminder)
    (default_assignee : Option String) :
    (convert_json_to_asana_row r default_assignee).map Prod.fst =
      legacy_fieldnames := by
  rw [convert_json_to_asana_row]
  by_cases ho : isOldFormat r
  · simp [ho, legacy_fieldnames]
  · simp only [ho, if_false, Bool.false_eq_true]
    by_cases hi : rowAdditionalInfo r ≠ []
    · rw [if_pos hi, dictSet_keys_of_mem]
      · simp [legacy_fieldnames]
      · simp
    · rw [if_neg hi]
      simp [legacy_fieldnames]

/-- Any containment in the `Notes` value survives the subtask loop. -/
theorem subtask_fold_notes_mono (sts : List Subtask) :
    ∀ (row : Row) (s : List Char),
      ContainsSeg s (dictGet row "Notes").data →
      ContainsSeg s (dictGet (sts.foldl appendSubtaskNotes row) "Notes").data := by
  induction sts with
  | nil => intro row s h; exact h
  | cons st rest ih =>
      intro row s h
      rw [List.foldl_cons]
      apply ih
      rw [appendSubtaskNotes]
      by_cases hne : dictGet row "Notes" ≠ ""
      · rw [if_pos hne, dictGet_dictSet_self, data_append, data_append]
        exact containsSeg_append_right _ _ _
          (containsSeg_append_right _ _ _ h)
      · rw [if_neg hne]
        push_neg at hne
        rw [hne] at h
        rcases h with ⟨u, v, huv⟩
        have hs : s = [] := by
          have := congrArg List.length huv
          simp at this
          exact List.length_eq_zero.mp (by omega)
        subst hs
        rw [dictGet_dictSet_self]
        exact ⟨[], (subtaskInfo st).data, by simp⟩

/-- Every subtask's marker line ends up inside the parent's `Notes`. -/
theorem subtask_fold_notes_line (sts : List Subtask) :
    ∀ (row : Row) (st : Subtask), st ∈ sts →
      ContainsSeg (subtaskInfo st).data
        (dictGet (sts.foldl appendSubtaskNotes row) "Notes").data := by
  induction sts with
  | nil => intro row st h; simp at h
  | cons st0 rest ih =>
      intro row st h
      rw [List.foldl_cons]
      rcases List.mem_cons.mp h with he | he
      · subst he
        apply subtask_fold_notes_mono
        rw [appendSubtaskNotes]
        by_cases hne : dictGet row "Notes" ≠ ""
        · rw [if_pos hne, dictGet_dictSet_self, data_append]
          exact containsSeg_append_left _ _ _ (containsSeg_self _)
        · rw [if_neg hne, dictGet_dictSet_self]
          exact containsSeg_self _
      · exact ih (appendSubtaskNotes row st0) st he

/-- A record with every key absent. -/
def emptyReminder : RawReminder :=
  ⟨none, none, none, none, none, none, none, none, none, none, none, none,
   none, none, none, none, none, none⟩

/-- A legacy-schema record carrying the four duplicate-key fields. -/
def mkLegacyReminder (t n l d : String) : RawReminder :=
  { emptyReminder with
      Title := some t, Notes := some n, ListName := some l, DueDate := some d }

/-- A current-schema record carrying the four duplicate-key fields. -/
def mkCurrentReminder (t n l d : String) : RawReminder :=
  { emptyReminder with
      title := some t, notes := some n, list_name := some l, due_date := some d }

/-- A current-schema record whose title consists of a single hashtag. -/
def hashtagOnlyReminder : RawReminder := { emptyReminder with title := some "#x" }

/-- A current-schema record marked done. -/
def doneReminder : RawReminder :=
  { emptyReminder with title := some "T", done := some "Ja" }

/-- A current-schema record with one subtask. -/
def subtaskReminder : RawReminder :=
  { emptyReminder with
      title := some "T"
      subtasks := some [⟨some "Sub 1", none⟩] }

/-- The `Name` value of the legacy row is the hashtag-cleaned title, falling
back to the original title when the cleaned title is empty. -/
theorem convert_json_to_asana_row_name (r : RawReminder)
    (default_assignee : Option String) :
    dictGet (convert_json_to_asana_row r default_assignee) "Name" =
      (if (extract_tags_from_title (reminderTitle r)).1 = ""
       then reminderTitle r else (extract_tags_from_title (reminderTitle r)).1) := by
  rw [convert_json_to_asana_row]
  by_cases ho : isOldFormat r
  · simp [ho, dictGet, List.find?]
  · simp only [ho, if_false, Bool.false_eq_true]
    by_cases hi : rowAdditionalInfo r ≠ []
    · rw [if_pos hi, dictGet_dictSet_ne _ _ _ _ (by decide)]
      simp [dictGet, List.find?]
    · rw [if_neg hi]
      simp [dictGet, List.find?]

/-! ## The claims -/

/-- Claim C1 (evaluation of the code at the failing inputs): contrary to the
claim, the spec (§4.3) and the repository's own tests (`TestPriorityMapping`,
`TestNewPriorityMapping`, which assert the empty string here), `map_priority`
maps the absent/none markers `''`, `'Ohne'`, `'None'` and every unrecognized
input to `'Low'` (and to `'Niedrig'` when the target language is `'de'`). -/
theorem map_priority_defaults_to_low :
    map_priority "Ohne" "en" = "Low" ∧ map_priority "None" "en" = "Low" ∧
    map_priority "" "en" = "Low" ∧ map_priority "Unknown" "en" = "Low" ∧
    map_priority "Ohne" "de" = "Niedrig" ∧ map_priority "Unknown" "de" = "Niedrig" := by
  refine ⟨rfl, rfl, rfl, rfl, rfl, rfl⟩

/-- Claim C2 (spec-modelled, `deduplicate_reminders` is absent from
`asana_convert.py`): deduplication keeps a subsequence of the input
(preserving relative order), no two survivors share a normalized
(title, notes, section/list, due_date) key, every input record has a
surviving representative, each survivor is the first occurrence of its key,
the key ignores priority, tags and completion status, and a legacy-schema
and a current-schema record with equal semantic content have equal keys. -/
theorem deduplicate_reminders_spec :
    ∀ reminders : List RawReminder,
      (deduplicate_reminders reminders).Sublist reminders ∧
      ((deduplicate_reminders reminders).map dedupKey).Nodup ∧
      (∀ r ∈ reminders,
        ∃ y ∈ deduplicate_reminders reminders, dedupKey y = dedupKey r) ∧
      (∀ y ∈ deduplicate_reminders reminders,
        reminders.find? (fun z => decide (dedupKey z = dedupKey y)) = some y) ∧
      (∀ (r : RawReminder) (p d f : Option String) (t : Option (List String))
         (b : Option Bool),
        dedupKey { r with prio := p, tags := t, done := d,
                          IsCompleted := b, Priority := f } = dedupKey r) ∧
      (∀ t n l d : String,
        dedupKey (mkLegacyReminder t n l d) = dedupKey (mkCurrentReminder t n l d)) := by
  intro reminders
  refine ⟨dedupByKey_sublist dedupKey [] reminders,
          dedupByKey_keys_nodup dedupKey [] reminders, ?_, ?_, ?_, ?_⟩
  · intro r hr
    rcases dedupByKey_complete dedupKey [] reminders r hr with hmem | h
    · simp at hmem
    · exact h
  · intro y hy
    exact dedupByKey_find_first dedupKey [] reminders y hy
  · intro r p d f t b; rfl
  · intro t n l d; rfl

theorem deduplicate_reminders_spec_witness :
    ∃ y ∈ deduplicate_reminders [mkCurrentReminder "A" "" "W" ""],
      dedupKey y = dedupKey (mkCurrentReminder "A" "" "W" "") :=
  (deduplicate_reminders_spec [mkCurrentReminder "A" "" "W" ""]).2.2.1
    (mkCurrentReminder "A" "" "W" "") (List.mem_singleton.mpr rfl)

/-- Claim C3: `extract_tags_from_title` returns the names of all
`#`-followed-by-word-characters tokens in left-to-right order (every `'#'`
position followed by a word character contributes the maximal word run after
it), and when the cleaned title is empty the row builder's `Name` falls back
to the original title, so no row has an empty name for a non-empty source
title. -/
theorem extract_tags_and_name_fallback :
    ∀ (title : String) (r : RawReminder) (a : Option String),
      (extract_tags_from_title title).2 =
        (posSpec title.data).map (fun t => (⟨t⟩ : String)) ∧
      (reminderTitle r ≠ "" →
        dictGet (convert_json_to_asana_row r a) "Name" ≠ "") := by
  intro title r a
  constructor
  · show (findTags title.data).map _ = _
    rw [findTags_eq_posSpec]
  · intro h
    rw [convert_json_to_asana_row_name]
    by_cases hc : (extract_tags_from_title (reminderTitle r)).1 = ""
    · rw [if_pos hc]; exact h
    · rw [if_neg hc]; exact hc

theorem extract_tags_and_name_fallback_witness :
    dictGet (convert_json_to_asana_row hashtagOnlyReminder none) "Name" ≠ "" :=
  (extract_tags_and_name_fallback "#x" hashtagOnlyReminder none).2 (by decide)

/-- Claim C4: `format_date` renders every parseable ISO-8601 timestamp
(with optional `'Z'` suffix or explicit offset) as zero-padded `MM/DD/YYYY`,
and returns the empty string for empty and for unparseable input; the
embedded function is total, so nothing is raised to the caller. -/
theorem format_date_spec :
    (∀ (s : String) (dt : PyDate),
      parse_isoformat (replaceZ s.data) = some dt →
      format_date s = pad2 dt.month ++ "/" ++ pad2 dt.day ++ "/" ++ pad4 dt.year) ∧
    (∀ s : String, parse_isoformat (replaceZ s.data) = none → format_date s = "") ∧
    format_date "" = "" ∧ format_date "not-a-date" = "" ∧
    format_date "2025-03-15T09:00:00Z" = "03/15/2025" ∧
    format_date "2025-12-31T23:59:59+00:00" = "12/31/2025" := by
  refine ⟨?_, ?_, rfl, rfl, rfl, rfl⟩
  · intro s dt h
    by_cases hs : s = ""
    · subst hs
      have hnone : parse_isoformat (replaceZ ("" : String).data) = none := rfl
      rw [hnone] at h
      exact absurd h (by simp)
    · simp only [format_date, if_neg hs, h]
  · intro s h
    by_cases hs : s = ""
    · simp only [format_date, if_pos hs]
    · simp only [format_date, if_neg hs, h]

theorem format_date_spec_witness :
    format_date "2025-02-08T18:00:00Z" = pad2 2 ++ "/" ++ pad2 8 ++ "/" ++ pad4 2025 :=
  format_date_spec.1 "2025-02-08T18:00:00Z" ⟨2025, 2, 8⟩ rfl

/-- Claim C5: `process_bulk_json` converts exactly the records that pass the
completion filter (legacy boolean `Is Completed` or current `done == 'Ja'`),
counting the dropped completed records as skipped; a completed record yields
zero rows and one skip when completed tasks are excluded, and one row when
they are included. -/
theorem process_bulk_json_completion_filter :
    ∀ (reminders : List RawReminder) (a : Option String) (inc : Bool),
      (process_bulk_json reminders a inc).1 =
        (reminders.filter (fun r => inc || !reminderIsCompleted r)).map
          (fun r => convert_json_to_asana_row r a) ∧
      (process_bulk_json reminders a inc).2 =
        (reminders.filter (fun r => !inc && reminderIsCompleted r)).length ∧
      (∀ r : RawReminder, reminderIsCompleted r = true →
        process_bulk_json [r] a false = ([], 1) ∧
        process_bulk_json [r] a true = ([convert_json_to_asana_row r a], 0)) := by
  intro reminders a inc
  refine ⟨process_bulk_json_rows a inc reminders,
          process_bulk_json_skipped a inc reminders, ?_⟩
  intro r h
  constructor
  · simp [process_bulk_json, h]
  · simp [process_bulk_json, h]

theorem process_bulk_json_completion_filter_witness :
    process_bulk_json [doneReminder] none false = ([], 1) :=
  ((process_bulk_json_completion_filter [doneReminder] none false).2.2
    doneReminder (by decide)).1

/-- Claim C6: `combine_tags` concatenates the hashtag-derived tags with the
native tags and deduplicates case-insensitively keeping the first occurrence
with its original casing (`combine_tags ["Dev"] ["dev","OPS"] = ["Dev","OPS"]`);
the result is a subsequence of the concatenation with pairwise-distinct
lowercasings, and re-merging the output with nothing is the identity. -/
theorem combine_tags_spec :
    combine_tags ["Dev"] ["dev", "OPS"] = ["Dev", "OPS"] ∧
    (∀ hashtags native_tags : List String,
      combine_tags (combine_tags hashtags native_tags) [] =
        combine_tags hashtags native_tags) ∧
    (∀ hashtags native_tags : List String,
      (combine_tags hashtags native_tags).Sublist (hashtags ++ native_tags)) ∧
    (∀ hashtags native_tags : List String,
      ((combine_tags hashtags native_tags).map pyLower).Nodup) := by
  refine ⟨by decide, ?_, ?_, ?_⟩
  · intro h n
    show dedupByKey pyLower [] (combine_tags h n ++ []) = _
    rw [List.append_nil]
    apply dedupByKey_fixpoint
    · exact dedupByKey_keys_nodup pyLower [] (h ++ n)
    · intro x _; simp
  · intro h n; exact dedupByKey_sublist pyLower [] (h ++ n)
  · intro h n; exact dedupByKey_keys_nodup pyLower [] (h ++ n)

/-- Claim C7 counterexample: the claim says a name ending in `':'` keeps its
leading whitespace; but `format_section` runs `list_name[:-1].strip()`,
which also removes leading whitespace. -/
theorem format_section_leading_ws_counterexample :
    format_section (some "  Work:") = "Work" ∧
    format_section (some "  Work:") ≠ "  Work" := by
  constructor
  · rfl
  · decide

/-- Claim C7 (amended): empty or absent input yields the empty string; a name
not ending with `':'` passes through unchanged; a name ending with `':'` has
the trailing colon removed, after which whitespace is stripped from BOTH ends
(leading whitespace is removed as well, not kept as the original claim
states). -/
theorem format_section_amended :
    format_section none = "" ∧ format_section (some "") = "" ∧
    (∀ s : String, s.data.getLast? ≠ some ':' → format_section (some s) = s) ∧
    (∀ s : String, s.data.getLast? = some ':' →
      format_section (some s) = (⟨pyStrip s.data.dropLast⟩ : String)) := by
  refine ⟨rfl, rfl, ?_, ?_⟩
  · intro s h
    by_cases hs : s = ""
    · rw [hs]; rfl
    · simp only [format_section, if_neg hs, if_neg h]
  · intro s h
    have hs : s ≠ "" := by
      intro he
      rw [he] at h
      exact absurd h (by decide)
    simp only [format_section, if_neg hs, if_pos h]

theorem format_section_amended_witness :
    format_section (some "Personal") = "Personal" ∧
    format_section (some "Work Projects:") =
      (⟨pyStrip ("Work Projects:" : String).data.dropLast⟩ : String) :=
  ⟨format_section_amended.2.2.1 "Personal" (by decide),
   format_section_amended.2.2.2 "Work Projects:" (by decide)⟩

/-- Claim C8: `detect_json_format` classifies every document into exactly one
of `'bulk'` (a `'reminders'` key holding a sequence), `'single'` (a title key
in either casing, when not bulk) and `'unknown'` (otherwise); the caller's
dispatch treats `'unknown'` as a non-fatal `False` result rather than
raising. -/
theorem detect_json_format_classification :
    ∀ d : JsonDoc,
      (detect_json_format d = "bulk" ↔
        ∃ rs, d.reminders = some (RemindersValue.arr rs)) ∧
      (detect_json_format d = "single" ↔
        (¬(∃ rs, d.reminders = some (RemindersValue.arr rs)) ∧
         (d.Title.isSome || d.title.isSome) = true)) ∧
      (detect_json_format d = "unknown" ↔
        (¬(∃ rs, d.reminders = some (RemindersValue.arr rs)) ∧
         (d.Title.isSome || d.title.isSome) = false)) ∧
      (detect_json_format d = "unknown" → process_single_file_result d = false) := by
  intro d
  obtain ⟨rem, T, t⟩ := d
  cases rem with
  | none =>
      cases hb : (T.isSome || t.isSome) with
      | true =>
          refine ⟨?_, ?_, ?_, ?_⟩ <;>
            simp [detect_json_format, process_single_file_result, hb]
      | false =>
          refine ⟨?_, ?_, ?_, ?_⟩ <;>
            simp [detect_json_format, process_single_file_result, hb]
  | some v =>
      cases v with
      | arr rs =>
          refine ⟨?_, ?_, ?_, ?_⟩ <;>
            simp [detect_json_format, process_single_file_result]
      | nonList =>
          cases hb : (T.isSome || t.isSome) with
          | true =>
              refine ⟨?_, ?_, ?_, ?_⟩ <;>
                simp [detect_json_format, process_single_file_result, hb]
          | false =>
              refine ⟨?_, ?_, ?_, ?_⟩ <;>
                simp [detect_json_format, process_single_file_result, hb]

theorem detect_json_format_classification_witness :
    process_single_file_result ⟨none, none, none⟩ = false :=
  (detect_json_format_classification ⟨none, none, none⟩).2.2.2 rfl

/-- Claim C9: every output row of a conversion run has a key list exactly
equal to the active column header: `get_asana_fieldnames language` for the
Asana format (with the localized priority column name for `'de'`), and the
fixed legacy header for the original format. -/
theorem output_row_keys_match_header :
    ∀ (reminders : List RawReminder) (a : Option String) (p lang : String)
      (r : RawReminder) (inc : Bool),
      (∀ row ∈ convert_to_asana_format reminders a p lang,
        row.map Prod.fst = get_asana_fieldnames lang) ∧
      (convert_json_to_asana_row r a).map Prod.fst = legacy_fieldnames ∧
      (∀ row ∈ (process_bulk_json reminders a inc).1,
        row.map Prod.fst = legacy_fieldnames) := by
  intro reminders a p lang r inc
  refine ⟨?_, convert_json_to_asana_row_keys r a, ?_⟩
  · intro row hrow
    rw [convert_to_asana_format_eq_map] at hrow
    rcases List.mem_map.mp hrow with ⟨x, _, rfl⟩
    exact asanaMainRow_keys x a lang
  · intro row hrow
    rw [process_bulk_json_rows] at hrow
    rcases List.mem_map.mp hrow with ⟨x, _, rfl⟩
    exact convert_json_to_asana_row_keys x a

theorem output_row_keys_match_header_witness :
    (asanaMainRow subtaskReminder none "de").map Prod.fst =
      get_asana_fieldnames "de" :=
  (output_row_keys_match_header [subtaskReminder] none "P" "de"
      subtaskReminder false).1
    (asanaMainRow subtaskReminder none "de")
    (by rw [convert_to_asana_format_eq_map]; exact List.mem_singleton.mpr rfl)

/-- Claim C10: `convert_to_asana_format` yields exactly one row per input
record (the rows are the per-record builds, in order), performs no completion
filtering (changing the completion fields changes nothing), and subtasks
produce no rows of their own — each subtask's marker line is contained in
the parent row's `Notes` value. -/
theorem convert_to_asana_format_one_row_per_record :
    ∀ (reminders : List RawReminder) (a : Option String) (p lang : String),
      (convert_to_asana_format reminders a p lang).length = reminders.length ∧
      convert_to_asana_format reminders a p lang =
        reminders.map (fun r => asanaMainRow r a lang) ∧
      (∀ (r : RawReminder) (d : Option String) (b : Option Bool),
        convert_to_asana_format [{ r with done := d, IsCompleted := b }] a p lang =
          convert_to_asana_format [r] a p lang) ∧
      (∀ r : RawReminder, ∀ st ∈ reminderSubtasks r,
        ContainsSeg (subtaskInfo st).data
          (dictGet (asanaMainRow r a lang) "Notes").data) := by
  intro reminders a p lang
  refine ⟨?_, convert_to_asana_format_eq_map reminders a p lang, ?_, ?_⟩
  · rw [convert_to_asana_format_eq_map]; simp
  · intro r d b; rfl
  · intro r st hst
    exact subtask_fold_notes_line (reminderSubtasks r) _ st hst

theorem convert_to_asana_format_one_row_per_record_witness :
    ContainsSeg (subtaskInfo ⟨some "Sub 1", none⟩).data
      (dictGet (asanaMainRow subtaskReminder none "en") "Notes").data :=
  (convert_to_asana_format_one_row_per_record [subtaskReminder] none "P" "en").2.2.2
    subtaskReminder ⟨some "Sub 1", none⟩ (by decide)

end AsanaConvert
